import Mathlib

/-!
Verification development for the archive identification and extraction engine
of the VSCode-forks downloader (src/lab/vscode/download.py).

Shallow embedding conventions:
* Byte buffers are `List Nat` (one Nat per byte, values < 256 not enforced —
  only equality with fixed magic bytes matters).
* File names are `List Char` (the final path component, as Python's
  `archive_path.name`); Python's `.lower()` is modelled as ASCII lowering.
* External effects (subprocess runs, archive-library calls, destination file
  counts) are oracle parameters: a backend's behaviour is an input to the
  embedded function, and the embedding records only the control flow the
  Python source performs on those outcomes.
* Fallible Python code that the dispatcher wraps in try/except is modelled by
  outcome datatypes (`RunResult`, `PyOutcome`, `LibArchOutcome`); the one
  error that escapes `unpack_archive` (the `assert archive_path.exists()`)
  is modelled with `Except`.
-/

/-- Python `data.find(pat, start)` modelled as the least index `i ≥ start`
with `i < data.length` at which `pat` occurs; `none` when there is none.
Mirrors `data.find(squashfs_magic, start)` in `extract_appimage_with_unsquashfs`. -/
def matchesAt (data pat : List Nat) (i : Nat) : Bool :=
  pat.isPrefixOf (data.drop i)

/-- Predicate selecting candidate indices at or after `start`. -/
def occPred (data pat : List Nat) (start : Nat) (i : Nat) : Bool :=
  decide (start ≤ i) && matchesAt data pat i

/-- Python `bytes.find` with a start position (returns the first match or none). -/
def pyFind (data pat : List Nat) (start : Nat) : Option Nat :=
  ((List.range data.length).filter (occPred data pat start)).head?

/-- Fuel-driven transcription of the collection loop in
`extract_appimage_with_unsquashfs` (download.py lines 437-444):
repeated forward search, resuming at the previous match position + 1. -/
def collectOffsetsAux (data pat : List Nat) : Nat → Nat → List Nat
  | 0, _ => []
  | fuel + 1, start =>
    match pyFind data pat start with
    | none => []
    | some off => off :: collectOffsetsAux data pat fuel (off + 1)

/-- All offsets at which `pat` occurs in `data`, collected in search order
(ascending), exactly as the Python while-loop collects them. -/
def collectOffsets (data pat : List Nat) (start : Nat) : List Nat :=
  collectOffsetsAux data pat (data.length + 1 - start) start

/-- Stable descending insertion, building block of the model of Python's
`offsets.sort(reverse=True)`. -/
def insertDesc (a : Nat) : List Nat → List Nat
  | [] => [a]
  | b :: t => if b < a then a :: b :: t else b :: insertDesc a t

/-- Model of `list.sort(reverse=True)`: a stable descending sort (on `Nat`
any stable descending sort computes the same list as Python's Timsort). -/
def sortDesc (l : List Nat) : List Nat :=
  l.foldr insertDesc []

/-- The SquashFS superblock signature `hsqs` = [0x68, 0x73, 0x71, 0x73]. -/
def squashfsMagic : List Nat := [104, 115, 113, 115]

/-- Candidate offsets tried by the unsquashfs path: every occurrence of
`hsqs`, sorted from highest offset to lowest (download.py line 452). -/
def squashfsCandidates (data : List Nat) : List Nat :=
  sortDesc (collectOffsets data squashfsMagic 0)

/-- Specification-side list of all occurrences of `pat` in `data`, in
ascending order. -/
def occList (data pat : List Nat) : List Nat :=
  (List.range data.length).filter (matchesAt data pat)

theorem matchesAt_lt_length {data pat : List Nat} {i : Nat} (hpat : pat ≠ [])
    (h : matchesAt data pat i = true) : i < data.length := by
  by_contra hge
  push_neg at hge
  unfold matchesAt at h
  rw [List.drop_eq_nil_of_le hge] at h
  cases pat with
  | nil => exact hpat rfl
  | cons c cs => simp [List.isPrefixOf] at h

theorem pyFind_bounds {data pat : List Nat} {start off : Nat}
    (h : pyFind data pat start = some off) :
    start ≤ off ∧ off < data.length ∧ matchesAt data pat off = true := by
  unfold pyFind at h
  rcases hL : (List.range data.length).filter (occPred data pat start) with _ | ⟨a, t⟩
  · rw [hL] at h; simp at h
  · rw [hL] at h
    simp at h
    subst h
    have ha : a ∈ (List.range data.length).filter (occPred data pat start) := by
      rw [hL]; exact List.mem_cons_self a t
    rw [List.mem_filter] at ha
    obtain ⟨hr, hp⟩ := ha
    rw [List.mem_range] at hr
    unfold occPred at hp
    rw [Bool.and_eq_true, decide_eq_true_eq] at hp
    exact ⟨hp.1, hr, hp.2⟩

theorem pyFind_min {data pat : List Nat} {start off : Nat}
    (h : pyFind data pat start = some off) :
    ∀ j, start ≤ j → matchesAt data pat j = true → j < data.length → off ≤ j := by
  intro j hsj hmj hjl
  unfold pyFind at h
  rcases hL : (List.range data.length).filter (occPred data pat start) with _ | ⟨a, t⟩
  · rw [hL] at h; simp at h
  · rw [hL] at h
    simp at h
    subst h
    have hj : j ∈ (List.range data.length).filter (occPred data pat start) := by
      rw [List.mem_filter, List.mem_range]
      refine ⟨hjl, ?_⟩
      unfold occPred
      rw [Bool.and_eq_true, decide_eq_true_eq]
      exact ⟨hsj, hmj⟩
    have hpw : ((List.range data.length).filter (occPred data pat start)).Pairwise (· < ·) :=
      (List.pairwise_lt_range _).sublist (List.filter_sublist _)
    rw [hL] at hj hpw
    rcases List.mem_cons.mp hj with hja | hjt
    · omega
    · have := (List.pairwise_cons.mp hpw).1 j hjt
      omega

theorem pyFind_none {data pat : List Nat} {start : Nat}
    (h : pyFind data pat start = none) :
    ∀ j, start ≤ j → matchesAt data pat j = true → j < data.length → False := by
  intro j hsj hmj hjl
  unfold pyFind at h
  rcases hL : (List.range data.length).filter (occPred data pat start) with _ | ⟨a, t⟩
  · have hj : j ∈ (List.range data.length).filter (occPred data pat start) := by
      rw [List.mem_filter, List.mem_range]
      refine ⟨hjl, ?_⟩
      unfold occPred
      rw [Bool.and_eq_true, decide_eq_true_eq]
      exact ⟨hsj, hmj⟩
    rw [hL] at hj
    simp at hj
  · rw [hL] at h; simp at h

theorem mem_collectOffsetsAux {data pat : List Nat} (hpat : pat ≠ []) :
    ∀ (fuel start o : Nat), data.length + 1 - start ≤ fuel →
      (o ∈ collectOffsetsAux data pat fuel start ↔
        start ≤ o ∧ matchesAt data pat o = true) := by
  intro fuel
  induction fuel with
  | zero =>
    intro start o hf
    simp only [collectOffsetsAux, List.not_mem_nil, false_iff]
    rintro ⟨hso, hmo⟩
    have := matchesAt_lt_length hpat hmo
    omega
  | succ n ih =>
    intro start o hf
    simp only [collectOffsetsAux]
    rcases hfind : pyFind data pat start with _ | off
    · simp only [List.not_mem_nil, false_iff]
      rintro ⟨hso, hmo⟩
      exact pyFind_none hfind o hso hmo (matchesAt_lt_length hpat hmo)
    · obtain ⟨hso, hol, hmo⟩ := pyFind_bounds hfind
      have hrec : data.length + 1 - (off + 1) ≤ n := by omega
      rw [List.mem_cons, ih (off + 1) o hrec]
      constructor
      · rintro (rfl | ⟨h1, h2⟩)
        · exact ⟨hso, hmo⟩
        · exact ⟨by omega, h2⟩
      · rintro ⟨h1, h2⟩
        have hoff := pyFind_min hfind o h1 h2 (matchesAt_lt_length hpat h2)
        rcases Nat.eq_or_lt_of_le hoff with rfl | hlt
        · exact Or.inl rfl
        · exact Or.inr ⟨by omega, h2⟩

theorem pairwise_collectOffsetsAux {data pat : List Nat} (hpat : pat ≠ []) :
    ∀ (fuel start : Nat), data.length + 1 - start ≤ fuel →
      (collectOffsetsAux data pat fuel start).Pairwise (· < ·) := by
  intro fuel
  induction fuel with
  | zero => intro start _; simp [collectOffsetsAux]
  | succ n ih =>
    intro start hf
    simp only [collectOffsetsAux]
    rcases hfind : pyFind data pat start with _ | off
    · simp
    · obtain ⟨hso, hol, hmo⟩ := pyFind_bounds hfind
      have hrec : data.length + 1 - (off + 1) ≤ n := by omega
      refine List.pairwise_cons.mpr ⟨?_, ih (off + 1) hrec⟩
      intro b hb
      have := (mem_collectOffsetsAux hpat n (off + 1) b hrec).mp hb
      omega

theorem mem_collectOffsets {data pat : List Nat} (hpat : pat ≠ []) (o : Nat) :
    o ∈ collectOffsets data pat 0 ↔ matchesAt data pat o = true := by
  unfold collectOffsets
  rw [mem_collectOffsetsAux hpat _ 0 o (by omega)]
  simp

theorem pairwise_collectOffsets {data pat : List Nat} (hpat : pat ≠ []) :
    (collectOffsets data pat 0).Pairwise (· < ·) := by
  unfold collectOffsets
  exact pairwise_collectOffsetsAux hpat _ 0 (by omega)

theorem eq_of_pairwise_lt :
    ∀ (l1 l2 : List Nat), l1.Pairwise (· < ·) → l2.Pairwise (· < ·) →
      (∀ a, a ∈ l1 ↔ a ∈ l2) → l1 = l2 := by
  intro l1
  induction l1 with
  | nil =>
    intro l2 _ _ hm
    cases l2 with
    | nil => rfl
    | cons b t => exact absurd ((hm b).mpr (List.mem_cons_self b t)) (List.not_mem_nil b)
  | cons a t1 ih =>
    intro l2 h1 h2 hm
    cases l2 with
    | nil => exact absurd ((hm a).mp (List.mem_cons_self a t1)) (List.not_mem_nil a)
    | cons b t2 =>
      obtain ⟨ha1, hp1⟩ := List.pairwise_cons.mp h1
      obtain ⟨hb2, hp2⟩ := List.pairwise_cons.mp h2
      have hab : a = b := by
        rcases List.mem_cons.mp ((hm a).mp (List.mem_cons_self a t1)) with h | h
        · exact h
        · rcases List.mem_cons.mp ((hm b).mpr (List.mem_cons_self b t2)) with h' | h'
          · omega
          · have := ha1 b h'
            have := hb2 a h
            omega
      subst hab
      have htm : ∀ x, x ∈ t1 ↔ x ∈ t2 := by
        intro x
        constructor
        · intro hx
          have hax := ha1 x hx
          rcases List.mem_cons.mp ((hm x).mp (List.mem_cons_of_mem a hx)) with h | h
          · omega
          · exact h
        · intro hx
          have hax := hb2 x hx
          rcases List.mem_cons.mp ((hm x).mpr (List.mem_cons_of_mem a hx)) with h | h
          · omega
          · exact h
      rw [ih t2 hp1 hp2 htm]

theorem insertDesc_all_ge {a : Nat} :
    ∀ {l : List Nat}, (∀ b ∈ l, ¬ (b < a)) → insertDesc a l = l ++ [a] := by
  intro l
  induction l with
  | nil => intro _; rfl
  | cons b t ih =>
    intro h
    unfold insertDesc
    rw [if_neg (h b (List.mem_cons_self b t))]
    rw [ih (fun c hc => h c (List.mem_cons_of_mem b hc))]
    rfl

theorem sortDesc_ascending :
    ∀ {l : List Nat}, l.Pairwise (· < ·) → sortDesc l = l.reverse := by
  intro l
  induction l with
  | nil => intro _; rfl
  | cons a t ih =>
    intro h
    obtain ⟨ha, hp⟩ := List.pairwise_cons.mp h
    have hstep : sortDesc (a :: t) = insertDesc a (sortDesc t) := rfl
    rw [hstep, ih hp, insertDesc_all_ge, List.reverse_cons]
    intro b hb
    have := ha b (List.mem_reverse.mp hb)
    omega

theorem collectOffsets_eq_occList {data pat : List Nat} (hpat : pat ≠ []) :
    collectOffsets data pat 0 = occList data pat := by
  apply eq_of_pairwise_lt _ _ (pairwise_collectOffsets hpat)
  · exact (List.pairwise_lt_range _).sublist (List.filter_sublist _)
  · intro a
    rw [mem_collectOffsets hpat]
    unfold occList
    rw [List.mem_filter, List.mem_range]
    constructor
    · intro h
      exact ⟨matchesAt_lt_length hpat h, h⟩
    · intro h
      exact h.2

/-- Index of the last '.' in a name, as Python's `name.rfind('.')` used by
`pathlib.PurePath.suffix`. -/
def lastDotIdx : List Char → Option Nat
  | [] => none
  | c :: cs =>
    match lastDotIdx cs with
    | some i => some (i + 1)
    | none => if c = '.' then some 0 else none

/-- Python `pathlib.PurePath(name).suffix`: the substring from the last dot,
provided that dot is neither the first nor the last character. -/
def pySuffix (name : List Char) : List Char :=
  match lastDotIdx name with
  | some i => if 0 < i ∧ i + 1 < name.length then name.drop i else []
  | none => []

/-- ASCII lowering of one character (model of Python `str.lower` restricted
to the ASCII names this program handles). -/
def toLowerCh (c : Char) : Char :=
  if 'A' ≤ c ∧ c ≤ 'Z' then Char.ofNat (c.toNat + 32) else c

/-- Python `name.lower()` on an ASCII name. -/
def lowerL (s : List Char) : List Char := s.map toLowerCh

/-- Python `s.endswith(pat)`. -/
def endsWithL (s pat : List Char) : Bool := pat.isSuffixOf s

/-- Convenience: a Lean string literal as a Python-style char list. -/
def strL (s : String) : List Char := s.toList

/-- Magic-byte test `magic_bytes[:2] == b'MZ'` (download.py line 729). -/
def isPe (magic : List Nat) : Bool := magic.take 2 == [77, 90]

/-- Magic-byte test `magic_bytes[:2] == b'PK'` (download.py line 730). -/
def isZip (magic : List Nat) : Bool := magic.take 2 == [80, 75]

/-- The sniffed container type of an input file (spec §3 FormatClass). -/
inductive FormatClass
  | Zip
  | GzipTar
  | PEExecutable
  | DiskImage
  | AppImageCandidate
  | Unknown
deriving DecidableEq

/-- The classification performed by the branch chain of `unpack_archive`
(download.py lines 721-767): first 4 bytes are read, `suffix` is
`archive_path.suffix.lower()`, `name` is `archive_path.name.lower()`, and the
branch conditions are tested in source order (first match wins).  The `.exe`
suffix and the mislabeled `.zip`-with-PE-magic case share the PEExecutable
class because both run `extract_nsis_installer` with identical arguments. -/
def classify (name : List Char) (bytes : List Nat) : FormatClass :=
  let magic := bytes.take 4
  let suffix := lowerL (pySuffix name)
  let lname := lowerL name
  let zipNamed := suffix == strL ".zip" || endsWithL lname (strL ".zip")
  if zipNamed && isZip magic then .Zip
  else if zipNamed && isPe magic then .PEExecutable
  else if suffix == strL ".gz" && (endsWithL lname (strL ".tar.gz") || endsWithL lname (strL ".tgz")) then .GzipTar
  else if suffix == strL ".dmg" then .DiskImage
  else if suffix == strL ".exe" then .PEExecutable
  else if endsWithL lname (strL ".appimage") then .AppImageCandidate
  else .Unknown

/-- Outcome of one `subprocess.run` call: an exit code, or a raised
exception (e.g. the executable disappearing mid-run). -/
inductive RunResult
  | exit (code : Int)
  | err
deriving DecidableEq

/-- Outcome of a Python library call that either completes or raises
(zipfile/tarfile/py7zr/PySquashfsImage/chmod). -/
inductive PyOutcome
  | ok
  | err
deriving DecidableEq

/-- Outcome of a `libarchive.file_reader` iteration: the number of entries
iterated, or a raised exception. -/
inductive LibArchOutcome
  | entries (n : Nat)
  | err
deriving DecidableEq

/-- The Tool Registry capability set built by `ensure_extraction_tools`:
which of unsquashfs / 7z / innoextract were found on PATH. -/
structure ToolSet where
  unsquashfs : Bool
  sevenz : Bool
  innoextract : Bool
deriving DecidableEq

/-- Oracle bundle for all backend behaviours consulted by the dispatcher.
`innoFiles`, `sevenzFiles`, `p7Files` are the entry counts observed in the
destination directory after the corresponding backend ran (`rglob("*")`);
the Python code inspects the first two but never the third. -/
structure Backends where
  zipRead : PyOutcome
  tarRead : PyOutcome
  unsq : Nat → RunResult
  pysq : List Nat → PyOutcome
  laSquash : List Nat → LibArchOutcome
  inno : RunResult
  innoFiles : Nat
  sevenz : RunResult
  sevenzFiles : Nat
  p7 : PyOutcome
  p7Files : Nat
  laExe : LibArchOutcome

/-- Trial loop of `extract_appimage_with_unsquashfs` (download.py lines
457-480) over the descending candidate offsets.  Returns (return value,
is the carved temp file left on disk).  Per offset: the carved image is
(re)written, then unsquashfs runs; exit 0 unlinks the temp file and returns
True; a nonzero exit moves to the next offset (the temp file is merely
overwritten, not removed); a raised exception is caught by the function-wide
handler (lines 482-484), which returns False without removing the temp file;
exhaustion unlinks the temp file and returns False. -/
def unsqTrialLoop (unsq : Nat → RunResult) : List Nat → Bool × Bool
  | [] => (false, false)
  | off :: rest =>
    match unsq off with
    | .err => (false, true)
    | .exit c => if c = 0 then (true, false) else unsqTrialLoop unsq rest

/-- Model of `extract_appimage_with_unsquashfs` (download.py lines 420-484):
scan for every `hsqs` occurrence; zero occurrences return False before any
temp file exists; otherwise try offsets sorted highest-first. -/
def extract_appimage_with_unsquashfs (data : List Nat) (unsq : Nat → RunResult) : Bool × Bool :=
  let offsets := collectOffsets data squashfsMagic 0
  if offsets = [] then (false, false)
  else unsqTrialLoop unsq (sortDesc offsets)

/-- Reading the carved temp file with `libarchive.file_reader` (download.py
line 543): `contents` is what is on disk at the temp path (`none` = the file
does not exist, in which case opening it raises, hence `.err`). -/
def readCarved (contents : Option (List Nat)) (la : List Nat → LibArchOutcome) : LibArchOutcome :=
  match contents with
  | none => .err
  | some bs => la bs

/-- Observable result of the no-unsquashfs AppImage path: return value,
whether the carved temp file remains, and — when the libarchive fallback was
reached — the disk contents it was given (`some none` = it was invoked on a
path whose file had already been deleted). -/
structure AppFallbackTrace where
  result : Bool
  tempLeft : Bool
  laCalledWith : Option (Option (List Nat))
deriving DecidableEq

/-- Model of the library fallback path of `extract_appimage` (download.py
lines 497-581): single `data.find(b'hsqs')`; carve `data[offset:]` to the
temp file; try PySquashfsImage (success unlinks the temp and returns True);
on its exception the temp file is unlinked (lines 537-538) and libarchive is
then opened on that same, now missing, path; entry_count > 0 would return
True, entry_count == 0 False, and a raised exception returns True
("keep the AppImage binary", degrade-to-success, line 577). -/
def extract_appimage_fallback (data : List Nat) (pysq : List Nat → PyOutcome)
    (la : List Nat → LibArchOutcome) : AppFallbackTrace :=
  match pyFind data squashfsMagic 0 with
  | none => ⟨false, false, none⟩
  | some off =>
    let carved := data.drop off
    match pysq carved with
    | .ok => ⟨true, false, none⟩
    | .err =>
      match readCarved none la with
      | .entries 0 => ⟨false, false, some none⟩
      | .entries (_ + 1) => ⟨true, false, some none⟩
      | .err => ⟨true, false, some none⟩

/-- Model of `extract_appimage` (download.py lines 487-581): if the unsquash
tool is registered its result is returned directly (line 494); otherwise the
library fallback path runs. -/
def extract_appimage (data : List Nat) (tools : ToolSet) (b : Backends) : Bool × Bool :=
  if tools.unsquashfs then extract_appimage_with_unsquashfs data b.unsq
  else
    let t := extract_appimage_fallback data b.pysq b.laSquash
    (t.result, t.tempLeft)

/-- Model of `extract_with_innoextract` (download.py lines 584-609): success
iff the subprocess exits 0 and the destination holds at least one entry. -/
def extract_with_innoextract (r : RunResult) (files : Nat) : Bool :=
  match r with
  | .err => false
  | .exit c => decide (c = 0 ∧ 0 < files)

/-- Model of `extract_exe_with_7z` (download.py lines 612-640): success iff
the subprocess exits 0 and the destination holds at least one entry. -/
def extract_exe_with_7z (r : RunResult) (files : Nat) : Bool :=
  match r with
  | .err => false
  | .exit c => decide (c = 0 ∧ 0 < files)

/-- Model of `extract_nsis_installer` (download.py lines 643-707): ordered
chain innoextract → 7z → py7zr → libarchive.  The returned Nat is the entry
count in the destination at the moment of return (0 on failure paths, where
the code does not observe it).  Note the py7zr stage (lines 659-669): a
normal return of `extractall` yields True immediately, with no check of the
destination contents. -/
def extract_nsis_installer (tools : ToolSet) (b : Backends) : Bool × Nat :=
  if tools.innoextract && extract_with_innoextract b.inno b.innoFiles then (true, b.innoFiles)
  else if tools.sevenz && extract_exe_with_7z b.sevenz b.sevenzFiles then (true, b.sevenzFiles)
  else
    match b.p7 with
    | .ok => (true, b.p7Files)
    | .err =>
      match b.laExe with
      | .entries 0 => (false, 0)
      | .entries (n + 1) => (true, n + 1)
      | .err => (false, 0)

/-- Which branch of `unpack_archive` actually handled the input. -/
inductive Dispatch
  | zipReader
  | gzipTar
  | dmgKeep
  | installerChain
  | appimageChain
  | noBackend
deriving DecidableEq

/-- The one error `unpack_archive` signals past its boundary: the
`assert archive_path.exists()` on download.py line 719, raised before any
byte of the file is read. -/
inductive UnpackErr
  | archiveNotFound
deriving DecidableEq

/-- Boolean result of a native reader call wrapped by the dispatcher's
try/except (zipfile on lines 735-737, tarfile on lines 746-748): a raised
exception is caught at line 769 and converted to False. -/
def outcomeBool : PyOutcome → Bool
  | .ok => true
  | .err => false

/-- Model of `unpack_archive` (download.py lines 710-771).  The `exists_`
flag abstracts `archive_path.exists()`.  Everything after the assert sits in
one try/except, so backend-level failures never escape: they are encoded in
the boolean result. -/
def unpack_archive (name : List Char) (exists_ : Bool) (bytes : List Nat)
    (tools : ToolSet) (b : Backends) : Except UnpackErr (Bool × Dispatch) :=
  if exists_ = false then .error .archiveNotFound
  else .ok <|
    match classify name bytes with
    | .Zip => (outcomeBool b.zipRead, .zipReader)
    | .GzipTar => (outcomeBool b.tarRead, .gzipTar)
    | .DiskImage => (true, .dmgKeep)
    | .PEExecutable => ((extract_nsis_installer tools b).1, .installerChain)
    | .AppImageCandidate => ((extract_appimage bytes tools b).1, .appimageChain)
    | .Unknown => (false, .noBackend)

/-- Boolean "is an .ok result" discriminator for the dispatcher boundary. -/
def exceptIsOk : Except UnpackErr (Bool × Dispatch) → Bool
  | .ok _ => true
  | .error _ => false

/-- Outcome of the per-file slice of `download_product` that surrounds one
`unpack_archive` call (download.py lines 835-840). -/
structure DownloadStepOut where
  unpacked : Bool
  branch : Dispatch
  destDirCreated : Bool
deriving DecidableEq

/-- Model of download.py lines 837-840: the caller runs
`extract_dir.mkdir(exist_ok=True)` before every `unpack_archive` call, so
the destination directory is created unconditionally, before classification
and regardless of its result. -/
def download_unpack (name : List Char) (exists_ : Bool) (bytes : List Nat)
    (tools : ToolSet) (b : Backends) : Except UnpackErr DownloadStepOut :=
  match unpack_archive name exists_ bytes tools b with
  | .error e => .error e
  | .ok (r, d) => .ok ⟨r, d, true⟩

/-- A capability set with no external tools discovered. -/
def toolsNone : ToolSet := ⟨false, false, false⟩

/-- A backend oracle where every external tool fails with exit code 1 and
every library raises. -/
def bFailTool : Backends :=
  ⟨.ok, .ok, fun _ => .exit 1, fun _ => .err, fun _ => .err, .exit 1, 0, .exit 1, 0, .err, 0, .err⟩

/-- A backend oracle where py7zr completes normally but extracts nothing
(destination stays empty), and every other backend fails. -/
def bPyOk : Backends :=
  ⟨.ok, .ok, fun _ => .err, fun _ => .err, fun _ => .err, .err, 0, .err, 0, .ok, 0, .err⟩

/-- Python `pathname.lstrip('/')`: drop leading slashes (the only
sanitization applied to libarchive entry pathnames, download.py lines 547
and 679). -/
def pyLstripSlash (s : List Char) : List Char := s.dropWhile (· = '/')

/-- Split a relative pathname on '/' (all pieces, empties included). -/
def splitOnSlash : List Char → List (List Char)
  | [] => [[]]
  | c :: rest =>
    match splitOnSlash rest with
    | [] => [[]]
    | s :: ss => if c = '/' then [] :: s :: ss else (c :: s) :: ss

/-- Pathname components as pathlib keeps them: empty pieces vanish,
`..` and `.` survive untouched. -/
def pathParts (s : List Char) : List (List Char) :=
  (splitOnSlash s).filter (· ≠ [])

/-- The path actually opened for writing by the libarchive loops:
`extract_dir / entry.pathname.lstrip('/')` — destination components
followed by the entry's components, with no further sanitization. -/
def writeDest (dest : List (List Char)) (pathname : List Char) : List (List Char) :=
  dest ++ pathParts (pyLstripSlash pathname)

/-- Filesystem resolution of `.` and `..` components against an
accumulated absolute path. -/
def resolveFrom (acc : List (List Char)) : List (List Char) → List (List Char)
  | [] => acc
  | c :: rest =>
    if c = strL ".." then resolveFrom acc.dropLast rest
    else if c = strL "." then resolveFrom acc rest
    else resolveFrom (acc ++ [c]) rest

/-- Resolve a component path from the filesystem root. -/
def resolvePath (p : List (List Char)) : List (List Char) :=
  resolveFrom [] p

/-- The resolved path `p` lies inside the directory tree rooted at `root`. -/
def inTree (root p : List (List Char)) : Prop :=
  ∃ t, p = root ++ t

theorem unsqTrialLoop_no_success {unsq : Nat → RunResult} (h : ∀ off, unsq off ≠ .exit 0) :
    ∀ l, (unsqTrialLoop unsq l).1 = false := by
  intro l
  induction l with
  | nil => rfl
  | cons off rest ih =>
    simp only [unsqTrialLoop]
    cases hr : unsq off with
    | err => rfl
    | exit c =>
      show (if c = 0 then ((true : Bool), (false : Bool)) else unsqTrialLoop unsq rest).1 = false
      by_cases hc : c = 0
      · subst hc; exact absurd hr (h off)
      · rw [if_neg hc]; exact ih

theorem unsqTrialLoop_no_err {unsq : Nat → RunResult} (h : ∀ off, unsq off ≠ .err) :
    ∀ l, (unsqTrialLoop unsq l).2 = false := by
  intro l
  induction l with
  | nil => rfl
  | cons off rest ih =>
    simp only [unsqTrialLoop]
    cases hr : unsq off with
    | err => exact absurd hr (h off)
    | exit c =>
      show (if c = 0 then ((true : Bool), (false : Bool)) else unsqTrialLoop unsq rest).2 = false
      by_cases hc : c = 0
      · rw [if_pos hc]
      · rw [if_neg hc]; exact ih

theorem extract_with_innoextract_iff (r : RunResult) (f : Nat) :
    extract_with_innoextract r f = true ↔ r = .exit 0 ∧ 0 < f := by
  cases r with
  | err => simp [extract_with_innoextract]
  | exit c => simp [extract_with_innoextract]

theorem extract_exe_with_7z_iff (r : RunResult) (f : Nat) :
    extract_exe_with_7z r f = true ↔ r = .exit 0 ∧ 0 < f := by
  cases r with
  | err => simp [extract_exe_with_7z]
  | exit c => simp [extract_exe_with_7z]

/-- C5: for every byte buffer, the SquashFS Locator used by the
unsquash-tool path collects the offset of every occurrence of the 4-byte
signature `hsqs` (repeated forward search resuming at previous match
position + 1) and yields them sorted from highest offset to lowest; in
particular, for a buffer whose occurrences are exactly at offsets
o1 < o2 < o3 the candidate sequence is exactly [o3, o2, o1]. -/
theorem C5_locator (data : List Nat) :
    squashfsCandidates data = (occList data squashfsMagic).reverse ∧
    (∀ o1 o2 o3 : Nat, o1 < o2 → o2 < o3 →
      matchesAt data squashfsMagic o1 = true →
      matchesAt data squashfsMagic o2 = true →
      matchesAt data squashfsMagic o3 = true →
      (∀ i, matchesAt data squashfsMagic i = true → i = o1 ∨ i = o2 ∨ i = o3) →
      squashfsCandidates data = [o3, o2, o1]) := by
  have hpat : squashfsMagic ≠ [] := by decide
  constructor
  · unfold squashfsCandidates
    rw [collectOffsets_eq_occList hpat]
    apply sortDesc_ascending
    unfold occList
    exact (List.pairwise_lt_range _).sublist (List.filter_sublist _)
  · intro o1 o2 o3 h12 h23 hm1 hm2 hm3 hcomp
    have hpw3 : ([o1, o2, o3] : List Nat).Pairwise (· < ·) := by
      simp [List.pairwise_cons]
      omega
    have hcoll : collectOffsets data squashfsMagic 0 = [o1, o2, o3] := by
      apply eq_of_pairwise_lt _ _ (pairwise_collectOffsets hpat) hpw3
      intro a
      rw [mem_collectOffsets hpat]
      constructor
      · intro h
        rcases hcomp a h with rfl | rfl | rfl <;> simp
      · intro ha
        rcases List.mem_cons.mp ha with rfl | ha2
        · exact hm1
        rcases List.mem_cons.mp ha2 with rfl | ha3
        · exact hm2
        rcases List.mem_cons.mp ha3 with rfl | ha4
        · exact hm3
        · exact absurd ha4 (List.not_mem_nil a)
    unfold squashfsCandidates
    rw [hcoll, sortDesc_ascending hpw3]
    rfl

/-- C5 witness: a concrete buffer made of three back-to-back copies of the
signature has occurrences exactly at 0, 4, 8 and candidate list [8, 4, 0]. -/
theorem C5_witness :
    squashfsCandidates (squashfsMagic ++ squashfsMagic ++ squashfsMagic) = [8, 4, 0] :=
  (C5_locator (squashfsMagic ++ squashfsMagic ++ squashfsMagic)).2 0 4 8
    (by decide) (by decide) (by decide) (by decide) (by decide)
    (fun i hi => by
      have h12 : (squashfsMagic ++ squashfsMagic ++ squashfsMagic).length = 12 := by decide
      have hil : i < 12 := h12 ▸ matchesAt_lt_length (by decide) hi
      have hb : ∀ j, j < 12 →
          matchesAt (squashfsMagic ++ squashfsMagic ++ squashfsMagic) squashfsMagic j = true →
          j = 0 ∨ j = 4 ∨ j = 8 := by decide
      exact hb i hil hi)

/-- C1 counterexample: a file whose byte scan finds an `hsqs` occurrence
(so a concrete unsquashfs extraction attempt is made), with the unsquash
tool registered and failing at every offset with exit code 1, makes
`extract_appimage` return false — the claimed degrade-to-success chain is
not entered. -/
theorem C1_counterexample :
    collectOffsets squashfsMagic squashfsMagic 0 ≠ [] ∧
    extract_appimage squashfsMagic ⟨true, false, false⟩ bFailTool = (false, false) := by
  constructor
  · decide
  · decide

/-- C1 amended: when the unsquash tool is registered, `extract_appimage`
returns that path's result directly — in particular false whenever no tried
offset exits 0 — with no fallback to the bundled libraries and no
degrade-to-success; only when the tool is absent does the claimed rule hold:
the operation returns false iff the byte scan finds no `hsqs` occurrence,
and once the library attempt chain is entered it always returns true. -/
theorem C1_amended (data : List Nat) (b : Backends) (s i : Bool) :
    (extract_appimage data ⟨true, s, i⟩ b = extract_appimage_with_unsquashfs data b.unsq) ∧
    ((∀ off, b.unsq off ≠ .exit 0) → (extract_appimage data ⟨true, s, i⟩ b).1 = false) ∧
    ((extract_appimage data ⟨false, s, i⟩ b).1 = true ↔ (pyFind data squashfsMagic 0).isSome = true) := by
  refine ⟨rfl, ?_, ?_⟩
  · intro h
    show (extract_appimage_with_unsquashfs data b.unsq).1 = false
    unfold extract_appimage_with_unsquashfs
    by_cases he : collectOffsets data squashfsMagic 0 = []
    · rw [if_pos he]
    · rw [if_neg he]
      exact unsqTrialLoop_no_success h _
  · show (extract_appimage_fallback data b.pysq b.laSquash).result = true ↔ _
    unfold extract_appimage_fallback
    rcases hf : pyFind data squashfsMagic 0 with _ | off
    · simp
    · cases hp : b.pysq (data.drop off) with
      | ok => simp [hp]
      | err => simp [hp, readCarved]

/-- C1 witness for the amended theorem: with the tool registered and every
subprocess run exiting 1, the result is false. -/
theorem C1_witness :
    (extract_appimage squashfsMagic ⟨true, false, false⟩ bFailTool).1 = false :=
  (C1_amended squashfsMagic bFailTool false false).2.1 (fun off => by simp [bFailTool])

/-- C3 counterexample: a subprocess exception during the unsquashfs trial
sequence is caught by the function-wide handler, which returns false without
removing the carved temp file — the temp file is left behind. -/
theorem C3_counterexample :
    (extract_appimage_with_unsquashfs squashfsMagic (fun _ => .err)).2 = true := by
  decide

/-- C3 amended: the carved temp file is removed after a successful trial,
after failed trials, and when all offsets are exhausted — that is, on every
exit path in which no subprocess exception occurs — and the library fallback
path never leaves it behind either; but an exception interrupting the
unsquashfs trial sequence does leave the carved file on disk. -/
theorem C3_amended (data : List Nat) (unsq : Nat → RunResult) (pysq : List Nat → PyOutcome)
    (la : List Nat → LibArchOutcome) (h : ∀ off, unsq off ≠ .err) :
    (extract_appimage_with_unsquashfs data unsq).2 = false ∧
    (extract_appimage_fallback data pysq la).tempLeft = false := by
  constructor
  · unfold extract_appimage_with_unsquashfs
    by_cases he : collectOffsets data squashfsMagic 0 = []
    · rw [if_pos he]
    · rw [if_neg he]
      exact unsqTrialLoop_no_err h _
  · unfold extract_appimage_fallback
    rcases hf : pyFind data squashfsMagic 0 with _ | off
    · simp
    · cases hp : pysq (data.drop off) with
      | ok => simp [hp]
      | err => simp [hp, readCarved]

/-- C3 witness for the amended theorem: exception-free trials leave no temp
file behind on either AppImage path. -/
theorem C3_witness :
    (extract_appimage_with_unsquashfs squashfsMagic (fun _ => .exit 1)).2 = false ∧
    (extract_appimage_fallback squashfsMagic (fun _ => .err) (fun _ => .err)).tempLeft = false :=
  C3_amended squashfsMagic (fun _ => .exit 1) (fun _ => .err) (fun _ => .err)
    (fun off => by simp)

/-- C2 counterexample: with no external tools, a py7zr run that completes
without error but extracts zero entries makes `extract_nsis_installer`
return true with an empty destination — contradicting "success iff some
backend completes without error AND the destination is non-empty", and the
chain does not advance to libarchive. -/
theorem C2_counterexample :
    extract_nsis_installer toolsNone bPyOk = (true, 0) := by
  decide

/-- C2 amended: the chain innoextract → 7z → py7zr → libarchive is tried
strictly in that order, but the non-emptiness requirement applies only to
innoextract, 7z (destination entry count > 0) and libarchive (entry count
> 0): the py7zr stage succeeds as soon as `extractall` completes without
raising, with no check of the destination contents.  The overall result is
true iff one of the four stages so succeeds. -/
theorem C2_amended (tools : ToolSet) (b : Backends) :
    (extract_nsis_installer tools b).1 = true ↔
      (tools.innoextract = true ∧ b.inno = .exit 0 ∧ 0 < b.innoFiles) ∨
      (tools.sevenz = true ∧ b.sevenz = .exit 0 ∧ 0 < b.sevenzFiles) ∨
      b.p7 = .ok ∨ (∃ n, b.laExe = .entries (n + 1)) := by
  unfold extract_nsis_installer
  by_cases h1 : (tools.innoextract && extract_with_innoextract b.inno b.innoFiles) = true
  · rw [if_pos h1]
    rw [Bool.and_eq_true] at h1
    have := (extract_with_innoextract_iff _ _).mp h1.2
    exact iff_of_true rfl (Or.inl ⟨h1.1, this.1, this.2⟩)
  · rw [if_neg h1]
    have h1' : ¬(tools.innoextract = true ∧ b.inno = .exit 0 ∧ 0 < b.innoFiles) := by
      rintro ⟨ha, hb', hc⟩
      exact h1 (by
        rw [Bool.and_eq_true]
        exact ⟨ha, (extract_with_innoextract_iff _ _).mpr ⟨hb', hc⟩⟩)
    by_cases h2 : (tools.sevenz && extract_exe_with_7z b.sevenz b.sevenzFiles) = true
    · rw [if_pos h2]
      rw [Bool.and_eq_true] at h2
      have := (extract_exe_with_7z_iff _ _).mp h2.2
      exact iff_of_true rfl (Or.inr (Or.inl ⟨h2.1, this.1, this.2⟩))
    · rw [if_neg h2]
      have h2' : ¬(tools.sevenz = true ∧ b.sevenz = .exit 0 ∧ 0 < b.sevenzFiles) := by
        rintro ⟨ha, hb', hc⟩
        exact h2 (by
          rw [Bool.and_eq_true]
          exact ⟨ha, (extract_exe_with_7z_iff _ _).mpr ⟨hb', hc⟩⟩)
      cases hp : b.p7 with
      | ok => simp [h1', h2', hp]
      | err =>
        cases hl : b.laExe with
        | entries n =>
          cases n with
          | zero => simp [h1', h2', hp, hl]
          | succ m =>
            exact iff_of_true rfl (Or.inr (Or.inr (Or.inr ⟨m, rfl⟩)))
        | err => simp [h1', h2', hp, hl]

/-- C4: for every file whose (lowercased) name ends in `.zip`: ZIP magic
`PK` in the first two bytes classifies it Zip and the dispatcher runs the
native zip reader, while PE magic `MZ` classifies it PEExecutable and the
dispatcher runs the installer backend chain instead — the declared
extension notwithstanding. -/
theorem C4_sniffer (name : List Char) (bytes : List Nat) (tools : ToolSet) (b : Backends)
    (h : endsWithL (lowerL name) (strL ".zip") = true) :
    (bytes.take 2 = [80, 75] → classify name bytes = .Zip ∧
      unpack_archive name true bytes tools b = .ok (outcomeBool b.zipRead, .zipReader)) ∧
    (bytes.take 2 = [77, 90] → classify name bytes = .PEExecutable ∧
      unpack_archive name true bytes tools b = .ok ((extract_nsis_installer tools b).1, .installerChain)) := by
  have ht : (bytes.take 4).take 2 = bytes.take 2 := by
    rw [List.take_take]
    norm_num
  constructor
  · intro hpk
    have hz : isZip (bytes.take 4) = true := by
      unfold isZip
      rw [ht, hpk]
      rfl
    have hnp : isPe (bytes.take 4) = false := by
      unfold isPe
      rw [ht, hpk]
      rfl
    have hc : classify name bytes = .Zip := by
      unfold classify
      simp only [h, Bool.or_true, Bool.true_and, hz, if_pos]
    refine ⟨hc, ?_⟩
    simp [unpack_archive, hc]
  · intro hmz
    have hz : isZip (bytes.take 4) = false := by
      unfold isZip
      rw [ht, hmz]
      rfl
    have hp : isPe (bytes.take 4) = true := by
      unfold isPe
      rw [ht, hmz]
      rfl
    have hc : classify name bytes = .PEExecutable := by
      unfold classify
      simp only [h, Bool.or_true, Bool.true_and, hz, hp, Bool.and_false, if_neg, if_pos,
        Bool.false_eq_true, if_false]
    refine ⟨hc, ?_⟩
    simp [unpack_archive, hc]

/-- C4 witness: a file named `VSCode-win.zip` whose first two bytes are
`MZ` is classified PEExecutable and dispatched to the installer chain. -/
theorem C4_witness :
    classify (strL "VSCode-win.zip") [77, 90, 144, 0] = .PEExecutable ∧
    unpack_archive (strL "VSCode-win.zip") true [77, 90, 144, 0] toolsNone bPyOk =
      .ok ((extract_nsis_installer toolsNone bPyOk).1, .installerChain) :=
  (C4_sniffer (strL "VSCode-win.zip") [77, 90, 144, 0] toolsNone bPyOk (by decide)).2 (by decide)

/-- C6 counterexample: for an input matching no classification rule
(`foo.xyz`), the dispatcher does return failure with no backend invoked,
but the destination directory HAS been created: `download_product` runs
`extract_dir.mkdir(exist_ok=True)` before every `unpack_archive` call,
so the claimed "no destination directory is created or touched" is false. -/
theorem C6_counterexample :
    classify (strL "foo.xyz") [] = .Unknown ∧
    download_unpack (strL "foo.xyz") true [] toolsNone bPyOk =
      .ok ⟨false, .noBackend, true⟩ := by
  constructor
  · decide
  · rfl

/-- C6 amended: for every input classified Unknown the dispatcher returns
failure immediately, invoking no backend; the destination directory is
nevertheless created — by the caller, before dispatch, for every input
regardless of its classification. -/
theorem C6_amended (name : List Char) (bytes : List Nat) (tools : ToolSet) (b : Backends)
    (h : classify name bytes = .Unknown) :
    download_unpack name true bytes tools b = .ok ⟨false, .noBackend, true⟩ := by
  have hu : unpack_archive name true bytes tools b = .ok (false, .noBackend) := by
    simp [unpack_archive, h]
  simp [download_unpack, hu]

/-- C6 witness for the amended theorem at another unknown extension. -/
theorem C6_witness :
    download_unpack (strL "bar.qux") true [] toolsNone bPyOk =
      .ok ⟨false, .noBackend, true⟩ :=
  C6_amended (strL "bar.qux") [] toolsNone bPyOk (by decide)

/-- C7: the dispatcher signals an error past its boundary exactly when the
input path does not exist (the ArchiveNotFound assert, raised before any
byte is read); for every existing input, whatever the backend behaviours —
including every raised-exception outcome — it returns an ordinary boolean
result. -/
theorem C7_boundary (name : List Char) (exists_ : Bool) (bytes : List Nat)
    (tools : ToolSet) (b : Backends) :
    exceptIsOk (unpack_archive name exists_ bytes tools b) = exists_ ∧
    unpack_archive name false bytes tools b = .error .archiveNotFound := by
  constructor
  · cases exists_ with
    | false => rfl
    | true => rfl
  · rfl

/-- C8: on the no-unsquashfs AppImage path, when the signature is found and
the bundled SquashFS library raises on the carved image, the carved temp
file is deleted (download.py lines 537-538) before libarchive opens that
same path (line 543); opening the missing file raises, so the fallback
always fails and `extract_appimage` returns true by degrade-to-success,
whatever the archive-reading oracle would have said about the contents. -/
theorem C8_deleted_temp (data : List Nat) (pysq : List Nat → PyOutcome)
    (la : List Nat → LibArchOutcome) (off : Nat)
    (h1 : pyFind data squashfsMagic 0 = some off)
    (h2 : pysq (data.drop off) = .err) :
    extract_appimage_fallback data pysq la = ⟨true, false, some none⟩ ∧
    readCarved none la = .err := by
  constructor
  · simp [extract_appimage_fallback, h1, h2, readCarved]
  · rfl

/-- C8 witness at a concrete buffer whose scan finds the signature at 0. -/
theorem C8_witness :
    extract_appimage_fallback squashfsMagic (fun _ => .err) (fun _ => .err) =
      ⟨true, false, some none⟩ :=
  (C8_deleted_temp squashfsMagic (fun _ => .err) (fun _ => .err) 0 (by decide) rfl).1

theorem resolveFrom_append :
    ∀ (l acc r : List (List Char)), (∀ c ∈ l, c ≠ strL ".." ∧ c ≠ strL ".") →
      resolveFrom acc (l ++ r) = resolveFrom (acc ++ l) r := by
  intro l
  induction l with
  | nil =>
    intro acc r _
    rw [List.nil_append, List.append_nil]
  | cons c t ih =>
    intro acc r hl
    have hc := hl c (List.mem_cons_self c t)
    rw [List.cons_append]
    show (if c = strL ".." then _ else if c = strL "." then _ else resolveFrom (acc ++ [c]) (t ++ r)) = _
    rw [if_neg hc.1, if_neg hc.2]
    rw [ih (acc ++ [c]) r (fun x hx => hl x (List.mem_cons_of_mem c hx))]
    congr 1
    simp

/-- C9: for every entry written by the libarchive backends (installer chain
and carved AppImage path alike) the write path is exactly the destination
joined with the entry pathname after stripping leading slashes — no other
sanitization — so an entry whose pathname starts with `..` resolves to a
path outside the destination tree. -/
theorem C9_traversal (dest : List (List Char)) (p : List Char) :
    writeDest dest p = dest ++ pathParts (pyLstripSlash p) ∧
    writeDest dest (strL "../pwned") = dest ++ [strL "..", strL "pwned"] ∧
    (dest ≠ [] → (∀ c ∈ dest, c ≠ strL ".." ∧ c ≠ strL ".") →
      dest.getLast? ≠ some (strL "pwned") →
      resolvePath (writeDest dest (strL "../pwned")) = dest.dropLast ++ [strL "pwned"] ∧
      ¬ inTree dest (resolvePath (writeDest dest (strL "../pwned")))) := by
  have h2 : writeDest dest (strL "../pwned") = dest ++ [strL "..", strL "pwned"] := by
    show dest ++ pathParts (pyLstripSlash (strL "../pwned")) = _
    congr 1
  refine ⟨rfl, h2, ?_⟩
  intro hne hnorm hlast
  have hres : resolvePath (writeDest dest (strL "../pwned")) = dest.dropLast ++ [strL "pwned"] := by
    rw [h2]
    unfold resolvePath
    rw [resolveFrom_append dest [] _ hnorm, List.nil_append]
    show (if strL ".." = strL ".." then resolveFrom dest.dropLast [strL "pwned"] else _) = _
    rw [if_pos rfl]
    show (if strL "pwned" = strL ".." then _ else if strL "pwned" = strL "." then _
      else resolveFrom (dest.dropLast ++ [strL "pwned"]) []) = _
    rw [if_neg (by decide), if_neg (by decide)]
    rfl
  refine ⟨hres, ?_⟩
  rintro ⟨t, ht⟩
  rw [hres] at ht
  have hlen := congrArg List.length ht
  simp only [List.length_append, List.length_dropLast, List.length_cons, List.length_nil] at hlen
  have hdl : 0 < dest.length := List.length_pos.mpr hne
  have ht0 : t.length = 0 := by omega
  rw [List.length_eq_zero] at ht0
  subst ht0
  rw [List.append_nil] at ht
  apply hlast
  rw [← ht]
  exact List.getLast?_concat _

/-- C9 witness: for destination `/opt/app`, the entry pathname `../pwned`
is written to `/opt/pwned`, outside the destination tree. -/
theorem C9_witness :
    resolvePath (writeDest [strL "opt", strL "app"] (strL "../pwned")) =
      [strL "opt", strL "pwned"] ∧
    ¬ inTree [strL "opt", strL "app"]
      (resolvePath (writeDest [strL "opt", strL "app"] (strL "../pwned"))) := by
  have h := (C9_traversal [strL "opt", strL "app"] (strL "x")).2.2 (by decide) (by decide) (by decide)
  exact ⟨by rw [h.1]; rfl, h.2⟩

theorem beq_pair_short (bs : List Nat) (x y : Nat) (h : bs.length < 2) :
    (bs.take 2 == [x, y]) = false := by
  apply beq_eq_false_iff_ne.mpr
  intro he
  have hlen := congrArg List.length he
  simp only [List.length_take, List.length_cons, List.length_nil] at hlen
  omega

/-- C10: classification is total on short files: for every file with fewer
than 2 bytes the magic comparisons are simply false (Python slicing cannot
raise), and an empty file named `x.zip` falls through every branch to the
Unknown class, so `unpack_archive` returns false rather than raising. -/
theorem C10_short_magic :
    (∀ bs : List Nat, bs.length < 2 → isPe (bs.take 4) = false ∧ isZip (bs.take 4) = false) ∧
    classify (strL "x.zip") [] = .Unknown ∧
    (∀ tools b, unpack_archive (strL "x.zip") true [] tools b = .ok (false, .noBackend)) := by
  refine ⟨?_, by decide, ?_⟩
  · intro bs h
    have hl : (bs.take 4).length < 2 := by
      simp only [List.length_take]
      omega
    exact ⟨beq_pair_short _ _ _ hl, beq_pair_short _ _ _ hl⟩
  · intro tools b
    have hc : classify (strL "x.zip") [] = .Unknown := by decide
    simp [unpack_archive, hc]

/-- C10 witness at the empty file. -/
theorem C10_witness :
    isPe (List.take 4 ([] : List Nat)) = false ∧ isZip (List.take 4 ([] : List Nat)) = false :=
  C10_short_magic.1 [] (by decide)

/-- C2 witness: the amended characterization instantiated at the
empty-destination py7zr success scenario. -/
theorem C2_witness :
    ((extract_nsis_installer toolsNone bPyOk).1 = true ↔
      (toolsNone.innoextract = true ∧ bPyOk.inno = .exit 0 ∧ 0 < bPyOk.innoFiles) ∨
      (toolsNone.sevenz = true ∧ bPyOk.sevenz = .exit 0 ∧ 0 < bPyOk.sevenzFiles) ∨
      bPyOk.p7 = .ok ∨ (∃ n, bPyOk.laExe = .entries (n + 1))) :=
  C2_amended toolsNone bPyOk
